import Mathlib

/-!
Shallow embedding of the Recipe-Genie ("ChefGenie") client core:
the ingredient-text normalizer (`cleanIngredientText` in types.ts), the
recipe cache (`getCachedMatches`, `addToCache` in App.tsx), the shopping-list
merge engine (`toggleShoppingList`, `isRecipeInList` in App.tsx), the
price-display helper (`getItemPriceDisplay` in ShoppingList.tsx) and the
image-patch fan-out (`handleUpdateRecipeImage` in App.tsx).

Modelling conventions:
* JS strings are modelled as `List Char` / `String`; all inputs of interest
  are ASCII, so `String.prototype.toLowerCase` is modelled on the ASCII
  range (`jsLower`), and the regex character class `\s` is modelled by the
  exact ECMAScript WhiteSpace/LineTerminator set (`jsWS`).
* JS numbers (price arithmetic) are modelled exactly over `ℚ`; every price
  in the claims is exactly representable.
* `Math.random()`-generated item ids are modelled by an explicit id source
  `ids : Nat → String` (the k-th freshly created item receives `ids k`).
-/

namespace RecipeGenie

/-! ### Character classes of the ECMAScript regexes in `cleanIngredientText` -/

/-- The ECMAScript `\s` class (WhiteSpace ∪ LineTerminator), by code point. -/
def jsWS (c : Char) : Bool :=
  decide (c.toNat ∈ ([9, 10, 11, 12, 13, 32, 160, 5760, 8232, 8233, 8239, 8287, 12288, 65279] : List Nat)
    ∨ (8192 ≤ c.toNat ∧ c.toNat ≤ 8202))

/-- `String.prototype.toLowerCase`, modelled on the ASCII range. -/
def jsLower (c : Char) : Char :=
  if 65 ≤ c.toNat ∧ c.toNat ≤ 90 then Char.ofNat (c.toNat + 32) else c

/-- The class kept by `replace(/[^a-z0-9\s]/g, '')`: lowercase letters, digits, `\s`. -/
def keepChar (c : Char) : Bool :=
  decide ('a' ≤ c ∧ c ≤ 'z') || c.isDigit || jsWS c

/-- The class `[\d\.\/\s]` used by the quantity regex and by `^[\d\s\.\/]+`. -/
def qchar (c : Char) : Bool :=
  c.isDigit || decide (c = '.') || decide (c = '/') || jsWS c

/-! ### `replace(/\([^)]*\)/g, '')` — drop every parenthesized substring -/

/-- Drop characters up to and including the first `')'`; `none` if there is none
(the regex `\([^)]*\)` then fails at this `'('`). -/
def dropToClose : List Char → Option (List Char)
  | [] => none
  | c :: rest => if c = ')' then some rest else dropToClose rest

/-- Fuelled left-to-right scan for `\([^)]*\)` matches (fuel `≥` length suffices;
the fuel only discharges termination, it is never exhausted when seeded with
the list length). -/
def removeParensAux : Nat → List Char → List Char
  | 0, _ => []
  | _, [] => []
  | Nat.succ n, c :: rest =>
    if c = '(' then
      match dropToClose rest with
      | some rest2 => removeParensAux n rest2
      | none => c :: removeParensAux n rest
    else c :: removeParensAux n rest

def removeParens (l : List Char) : List Char := removeParensAux l.length l

/-! ### The quantity/unit prefix regex
`/^([\d\.\/\s]+)?(g|kg|ml|l|oz|lb|cups?|tsp|tbsp|pinch|bunch|pieces?|slices?|cans?|tins?|bottles?|packets?|jars?|cloves?|heads?|stalks?|fillets?)?\s+(of\s+)?/`
modelled with the backtracking order of the ECMAScript engine: the optional
group 1 `[\d./\s]+` is tried greedily (longest run first, giving characters
back one at a time, finally skipped), group 2 tries the alternatives in
source order with the greedy `s?` expanded plural-first, then `\s+` must
consume at least one whitespace character (maximal run), then `of` plus
whitespace is consumed if present. -/

/-- Group-2 alternatives in regex source order; `X s?` expands to `Xs`, `X`. -/
def unitAlts : List (List Char) :=
  [['g'], ['k', 'g'], ['m', 'l'], ['l'], ['o', 'z'], ['l', 'b'],
   ['c', 'u', 'p', 's'], ['c', 'u', 'p'],
   ['t', 's', 'p'], ['t', 'b', 's', 'p'],
   ['p', 'i', 'n', 'c', 'h'], ['b', 'u', 'n', 'c', 'h'],
   ['p', 'i', 'e', 'c', 'e', 's'], ['p', 'i', 'e', 'c', 'e'],
   ['s', 'l', 'i', 'c', 'e', 's'], ['s', 'l', 'i', 'c', 'e'],
   ['c', 'a', 'n', 's'], ['c', 'a', 'n'],
   ['t', 'i', 'n', 's'], ['t', 'i', 'n'],
   ['b', 'o', 't', 't', 'l', 'e', 's'], ['b', 'o', 't', 't', 'l', 'e'],
   ['p', 'a', 'c', 'k', 'e', 't', 's'], ['p', 'a', 'c', 'k', 'e', 't'],
   ['j', 'a', 'r', 's'], ['j', 'a', 'r'],
   ['c', 'l', 'o', 'v', 'e', 's'], ['c', 'l', 'o', 'v', 'e'],
   ['h', 'e', 'a', 'd', 's'], ['h', 'e', 'a', 'd'],
   ['s', 't', 'a', 'l', 'k', 's'], ['s', 't', 'a', 'l', 'k'],
   ['f', 'i', 'l', 'l', 'e', 't', 's'], ['f', 'i', 'l', 'l', 'e', 't']]

/-- Consume `(of\s+)?` at the head of `l` ("of" must be followed by whitespace). -/
def matchOf (l : List Char) : List Char :=
  match l with
  | 'o' :: 'f' :: c :: rest =>
    if jsWS c then (c :: rest).dropWhile jsWS else l
  | _ => l

/-- Consume `\s+(of\s+)?` at the head of `l`: `none` unless the head is
whitespace; on success return everything after the consumed prefix. -/
def matchTail (l : List Char) : Option (List Char) :=
  match l with
  | [] => none
  | c :: _ => if jsWS c then some (matchOf (l.dropWhile jsWS)) else none

/-- Try group 2's alternatives in order at `l`, each followed by `\s+(of\s+)?`;
after all alternatives, try group 2 unmatched. -/
def tryUnits : List (List Char) → List Char → Option (List Char)
  | [], l => matchTail l
  | u :: us, l =>
    if u.isPrefixOf l then
      match matchTail (l.drop u.length) with
      | some r => some r
      | none => tryUnits us l
    else tryUnits us l

/-- Try group-1 lengths `k, k-1, …, 0` (greedy with backtracking). -/
def tryFromK (l : List Char) : Nat → Option (List Char)
  | 0 => tryUnits unitAlts l
  | Nat.succ k =>
    match tryUnits unitAlts (l.drop (k + 1)) with
    | some r => some r
    | none => tryFromK l k

/-- `replace(quantityRegex, '')`: if the anchored quantity regex matches,
remove the matched prefix; otherwise leave the string unchanged. -/
def quantityStrip (l : List Char) : List Char :=
  match tryFromK l (l.takeWhile qchar).length with
  | some r => r
  | none => l

/-- `String.prototype.trim` (the same character set as `\s`). -/
def trimWS (l : List Char) : List Char :=
  (((l.dropWhile jsWS).reverse.dropWhile jsWS).reverse)

/-- The naive singularization step: if the result has length > 3, ends with
`'s'` and does not end with `"ss"`, drop the trailing `'s'` (`slice(0, -1)`). -/
def singularize (l : List Char) : List Char :=
  match l.reverse with
  | c :: t =>
    if c = 's' ∧ t.take 1 ≠ ['s'] ∧ 3 < l.length then t.reverse else l
  | [] => l

/-- `cleanIngredientText` from types.ts, step for step. -/
def cleanList (l : List Char) : List Char :=
  let l1 := l.map jsLower
  let l2 := removeParens l1
  let l3 := l2.filter keepChar
  let l4 := trimWS (quantityStrip l3)
  let l5 := trimWS (l4.dropWhile qchar)
  singularize l5

def cleanIngredientText (s : String) : String := String.mk (cleanList s.toList)

/-! ### Data model (types.ts) -/

inductive MealType where
  | lunch
  | dinner
deriving DecidableEq, Repr

inductive Protein where
  | any
  | chicken
  | beef
  | pork
  | lamb
  | fish
  | vegetarian
deriving DecidableEq, Repr

structure Ingredient where
  item : String
  store : String
  price : String
deriving DecidableEq, Repr

structure Recipe where
  id : String
  title : String
  description : String
  mealType : MealType
  protein : Protein
  prepTimeMinutes : Int
  difficulty : Int
  ingredients : List Ingredient
  instructions : List String
  image : Option String
deriving DecidableEq, Repr

structure FilterState where
  mealType : MealType
  protein : List Protein
  maxTime : Int
  supermarket : String
  difficulty : String
deriving DecidableEq, Repr

structure IngredientContribution where
  recipeId : String
  recipeTitle : String
  text : String
  price : Option String
deriving DecidableEq, Repr

structure ShoppingListItem where
  id : String
  name : String
  store : String
  checked : Bool
  contributions : List IngredientContribution
deriving DecidableEq, Repr

structure DayPlan where
  lunch : Option Recipe
  dinner : Option Recipe
deriving DecidableEq, Repr

structure WeeklyPlan where
  Monday : DayPlan
  Tuesday : DayPlan
  Wednesday : DayPlan
  Thursday : DayPlan
  Friday : DayPlan
  Saturday : DayPlan
  Sunday : DayPlan
deriving DecidableEq, Repr

/-! ### Recipe cache (App.tsx: `getCachedMatches`, `addToCache`) -/

/-- The filter predicate of `getCachedMatches`, with the source's
early-return structure. -/
def recipeMatchesFilter (f : FilterState) (r : Recipe) : Bool :=
  if r.mealType ≠ f.mealType then false
  else if ¬ (f.protein.any (fun p => p = Protein.any) || f.protein.any (fun p => p = r.protein)) = true then false
  else if f.maxTime < r.prepTimeMinutes then false
  else if f.difficulty ≠ ("Any") then
    if f.difficulty = ("Easy") ∧ 2 < r.difficulty then false
    else if f.difficulty = ("Medium") ∧ (r.difficulty < 3 ∨ 3 < r.difficulty) then false
    else if f.difficulty = ("Hard") ∧ r.difficulty < 4 then false
    else true
  else true

def getCachedMatches (recipeCache : List Recipe) (currentFilters : FilterState) : List Recipe :=
  recipeCache.filter (fun r => recipeMatchesFilter currentFilters r)

/-- `addToCache`: drop candidates whose title is already in the cache
(the dedup set is built from `prev` only), append the rest. -/
def addToCache (prev newRecipes : List Recipe) : List Recipe :=
  let uniqueNew := newRecipes.filter (fun r => ¬ prev.any (fun p => p.title = r.title))
  if uniqueNew.length = 0 then prev else prev ++ uniqueNew

/-! ### Shopping-list merge engine (App.tsx: `toggleShoppingList` et al.) -/

def isRecipeInList (shoppingList : List ShoppingListItem) (title : String) : Bool :=
  shoppingList.any (fun item => item.contributions.any (fun c => c.recipeTitle = title))

/-- The REMOVE branch of `toggleShoppingList`: filter out this title's
contributions, then drop items left with no contributions. -/
def removeRecipeContributions (title : String) (shoppingList : List ShoppingListItem) : List ShoppingListItem :=
  (shoppingList.map (fun item =>
      { item with contributions := item.contributions.filter (fun c => ¬ c.recipeTitle = title) })).filter
    (fun item => 0 < item.contributions.length)

/-- `ing.store || 'Any'` (the empty string is falsy). -/
def ingredientStore (ing : Ingredient) : String :=
  if ing.store = ("") then ("Any") else ing.store

def mkContribution (recipe : Recipe) (ing : Ingredient) : IngredientContribution :=
  { recipeId := recipe.id, recipeTitle := recipe.title, text := ing.item, price := some ing.price }

/-- `newList.findIndex(item => item.store === store && item.name === normName)`
followed by the functional update of that item: update the first item with the
given merge key, `none` when there is none. -/
def mergeFirst (store normName : String) (c : IngredientContribution) :
    List ShoppingListItem → Option (List ShoppingListItem)
  | [] => none
  | item :: rest =>
    if item.store = store ∧ item.name = normName then
      some ({ item with checked := false, contributions := item.contributions ++ [c] } :: rest)
    else
      (mergeFirst store normName c rest).map (fun r => item :: r)

/-- The body of the `recipe.ingredients.forEach` loop in the ADD branch;
the `Nat` component counts the items created so far (feeding the id source). -/
def addIngredient (recipe : Recipe) (ids : Nat → String)
    (acc : List ShoppingListItem × Nat) (ing : Ingredient) : List ShoppingListItem × Nat :=
  let normName := cleanIngredientText ing.item
  let store := ingredientStore ing
  let contribution := mkContribution recipe ing
  match mergeFirst store normName contribution acc.1 with
  | some newList => (newList, acc.2)
  | none =>
    (acc.1 ++ [{ id := ids acc.2, name := normName, store := store, checked := false,
                 contributions := [contribution] }], acc.2 + 1)

/-- The ADD branch of `toggleShoppingList`: fold the recipe's ingredients,
in order, over the current list. -/
def addRecipe (ids : Nat → String) (recipe : Recipe)
    (shoppingList : List ShoppingListItem) : List ShoppingListItem :=
  (recipe.ingredients.foldl (addIngredient recipe ids) (shoppingList, 0)).1

def toggleShoppingList (ids : Nat → String) (recipe : Recipe)
    (shoppingList : List ShoppingListItem) : List ShoppingListItem :=
  if isRecipeInList shoppingList recipe.title then
    removeRecipeContributions recipe.title shoppingList
  else
    addRecipe ids recipe shoppingList

/-! ### Price display (ShoppingList.tsx: `getItemPriceDisplay`) -/

/-- Digits of a decimal run as a natural number. -/
def digitsVal (ds : List Char) : Nat :=
  ds.foldl (fun acc c => acc * 10 + (c.toNat - 48)) 0

/-- First match of `/(\d+(\.\d+)?)/` in the character list, as an exact
rational (JS `parseFloat` of the matched text, modelled exactly). -/
def parsePriceList : List Char → Option ℚ
  | [] => none
  | c :: rest =>
    if c.isDigit then
      let ip := (c :: rest).takeWhile Char.isDigit
      let r1 := (c :: rest).dropWhile Char.isDigit
      match r1 with
      | d :: r2 =>
        let fr := r2.takeWhile Char.isDigit
        if d = '.' ∧ fr ≠ [] then
          some ((digitsVal ip : ℚ) + (digitsVal fr : ℚ) / (10 : ℚ) ^ fr.length)
        else some (digitsVal ip : ℚ)
      | [] => some (digitsVal ip : ℚ)
    else parsePriceList rest

def parsePrice (s : String) : Option ℚ := parsePriceList s.toList

/-- JS `Number.prototype.toFixed(2)` for the non-negative rationals produced
here: round half away from zero to 2 decimal places and render. -/
def toFixed2 (q : ℚ) : String :=
  let m := (Int.floor (q * 100 + 1 / 2)).toNat
  (toString (m / 100)) ++ (".") ++
    (if m % 100 < 10 then ("0") ++ toString (m % 100) else toString (m % 100))

/-- The contribution prices considered by `getItemPriceDisplay`:
`item.contributions.map(c => c.price).filter(p => p)` — both `undefined`
and the empty string are dropped by the truthiness filter. -/
def itemPrices (item : ShoppingListItem) : List String :=
  (item.contributions.filterMap (fun c => c.price)).filter (fun p => ¬ p = (""))

def getItemPriceDisplay (item : ShoppingListItem) : Option String :=
  match itemPrices item with
  | [] => none
  | [p] => some p
  | p :: q :: rest =>
    let prices := p :: q :: rest
    let sum := (prices.filterMap parsePrice).foldl (fun a b => a + b) (0 : ℚ)
    let allParseable := prices.all (fun s => (parsePrice s).isSome)
    if allParseable = true ∧ 0 < sum then some (("$") ++ toFixed2 sum)
    else some (String.intercalate (" + ") prices)

/-! ### Image patch fan-out (App.tsx: `handleUpdateRecipeImage`) -/

structure AppState where
  recipes : List Recipe
  favoriteRecipes : List Recipe
  recipeCache : List Recipe
  weeklyPlan : Option WeeklyPlan
deriving DecidableEq, Repr

def patchRecipe (id img : String) (r : Recipe) : Recipe :=
  if r.id = id then { r with image := some img } else r

/-- Per-day slot update: the source sets `image` in place exactly when the
slot is occupied and the id matches. -/
def patchDay (id img : String) (d : DayPlan) : DayPlan :=
  { lunch := d.lunch.map (patchRecipe id img), dinner := d.dinner.map (patchRecipe id img) }

def patchPlan (id img : String) (p : WeeklyPlan) : WeeklyPlan :=
  { Monday := patchDay id img p.Monday, Tuesday := patchDay id img p.Tuesday,
    Wednesday := patchDay id img p.Wednesday, Thursday := patchDay id img p.Thursday,
    Friday := patchDay id img p.Friday, Saturday := patchDay id img p.Saturday,
    Sunday := patchDay id img p.Sunday }

/-- `handleUpdateRecipeImage`: map the conditional image patch over every
collection. (The source's `planChanged` guard only avoids a redundant state
write; the resulting state is the same either way, since an unmatched patch
leaves the plan unchanged.) -/
def handleUpdateRecipeImage (id img : String) (s : AppState) : AppState :=
  { recipes := s.recipes.map (patchRecipe id img),
    favoriteRecipes := s.favoriteRecipes.map (patchRecipe id img),
    recipeCache := s.recipeCache.map (patchRecipe id img),
    weeklyPlan := s.weeklyPlan.map (patchPlan id img) }

def dayRecipes (d : DayPlan) : List Recipe := d.lunch.toList ++ d.dinner.toList

def planRecipes (p : WeeklyPlan) : List Recipe :=
  dayRecipes p.Monday ++ dayRecipes p.Tuesday ++ dayRecipes p.Wednesday ++
  dayRecipes p.Thursday ++ dayRecipes p.Friday ++ dayRecipes p.Saturday ++ dayRecipes p.Sunday

/-! ### Concrete sample data used by witnesses and counterexamples -/

/-- A deterministic stand-in for the `Math.random()` id source. -/
def exIds : Nat → String := fun n => toString n

def exIngredientTomato : Ingredient :=
  { item := ("Tomatoes"), store := ("Coles"), price := ("$3.50") }

def exRecipePasta : Recipe :=
  { id := ("r1"), title := ("Tomato Pasta"), description := ("d"), mealType := MealType.dinner,
    protein := Protein.vegetarian, prepTimeMinutes := 20, difficulty := 2,
    ingredients := [exIngredientTomato], instructions := [], image := none }

def exRecipeSoup : Recipe :=
  { id := ("r2"), title := ("Tomato Soup"), description := ("d"), mealType := MealType.lunch,
    protein := Protein.vegetarian, prepTimeMinutes := 15, difficulty := 1,
    ingredients := [{ item := ("2 Tomatoes"), store := ("Coles"), price := ("$1.25") }],
    instructions := [], image := none }

end RecipeGenie

namespace RecipeGenie

/-! ### C5 — the normalizer on the spec's example inputs -/

/-- C5 counterexample: on the spec's first example the normalizer yields
`"tomatoe"` (the naive singularization drops exactly one trailing `'s'`
from `"tomatoes"`), not `"tomato"` as the claim states. -/
theorem C5_counterexample :
    cleanIngredientText ("2 cups (diced) Tomatoes") = ("tomatoe") ∧
    cleanIngredientText ("2 cups (diced) Tomatoes") ≠ ("tomato") := by
  exact ⟨by decide, by decide⟩

/-- C5 (amended): the normalizer maps `"2 cups (diced) Tomatoes"` to
`"tomatoe"` and `"500g Chicken Breasts"` to `"chicken breast"`. -/
theorem C5_normalizer_examples_amended :
    cleanIngredientText ("2 cups (diced) Tomatoes") = ("tomatoe") ∧
    cleanIngredientText ("500g Chicken Breasts") = ("chicken breast") := by
  exact ⟨by decide, by decide⟩

/-! ### C10 — the normalizer can return a key with trailing whitespace -/

/-- C10: normalizing `"ab s"` yields `"ab "`, which ends in a whitespace
character (the final trim runs before the singularization step, which can
re-expose a trailing space); the trimmed mention `"ab"` yields the distinct
key `"ab"`, so the two merge keys differ only by that trailing space. -/
theorem C10_trailing_space_key :
    cleanIngredientText ("ab s") = ("ab ") ∧
    (cleanIngredientText ("ab s")).toList.getLast? = some ' ' ∧
    jsWS ' ' = true ∧
    cleanIngredientText ("ab") = ("ab") ∧
    cleanIngredientText ("ab s") ≠ cleanIngredientText ("ab") := by
  exact ⟨by decide, by decide, by decide, by decide, by decide⟩

/-! ### C6 — idempotence of the normalizer -/

/-- C6 counterexample: the normalizer is not idempotent:
`clean "ab s" = "ab "` but `clean "ab " = "ab"`. -/
theorem C6_counterexample :
    cleanIngredientText (cleanIngredientText ("ab s")) ≠ cleanIngredientText ("ab s") ∧
    cleanIngredientText ("ab s") = ("ab ") ∧
    cleanIngredientText (cleanIngredientText ("ab s")) = ("ab") := by
  exact ⟨by decide, by decide, by decide⟩

/-! ### C2 — retraction by recipe title -/

/-- The retraction operation as the claim words it: per item, keep the
contributions whose `recipeTitle` differs from the target, and drop the item
entirely when nothing remains. -/
def removeRecipeSpec (title : String) (shoppingList : List ShoppingListItem) : List ShoppingListItem :=
  shoppingList.filterMap (fun item =>
    if (item.contributions.filter (fun c => ¬ c.recipeTitle = title)).isEmpty then none
    else some { item with contributions := item.contributions.filter (fun c => ¬ c.recipeTitle = title) })

theorem removeRecipeContributions_eq_spec (title : String) (l : List ShoppingListItem) :
    removeRecipeContributions title l = removeRecipeSpec title l := by
  induction l with
  | nil => rfl
  | cons item rest ih =>
    simp only [removeRecipeContributions, removeRecipeSpec, List.map_cons, List.filter_cons,
      List.filterMap_cons] at ih ⊢
    by_cases h : item.contributions.filter (fun c => ¬ c.recipeTitle = title) = []
    · rw [if_neg (by rw [h]; exact Bool.false_ne_true), if_pos (List.isEmpty_iff.mpr h)]
      exact ih
    · rw [if_pos (decide_eq_true (List.length_pos.mpr h)),
        if_neg (fun hh => h (List.isEmpty_iff.mp hh))]
      rw [ih]

/-- C2: removing recipe title `T` (i) equals the claim's per-item
filter-then-drop description, (ii) leaves no contribution with
`recipeTitle = T` in any surviving item, and (iii) is exactly what the
toggle entry point performs when the recipe is in the list (keyed by title,
not id). -/
theorem C2_removeRecipe_retraction :
    (∀ (T : String) (l : List ShoppingListItem),
        removeRecipeContributions T l = removeRecipeSpec T l) ∧
    (∀ (T : String) (l : List ShoppingListItem),
        ∀ item ∈ removeRecipeContributions T l, ∀ c ∈ item.contributions, c.recipeTitle ≠ T) ∧
    (∀ (ids : Nat → String) (r : Recipe) (l : List ShoppingListItem),
        isRecipeInList l r.title = true →
        toggleShoppingList ids r l = removeRecipeContributions r.title l) := by
  refine ⟨removeRecipeContributions_eq_spec, ?_, ?_⟩
  · intro T l item hitem c hc
    simp only [removeRecipeContributions, List.mem_filter, List.mem_map] at hitem
    obtain ⟨⟨a, _, rfl⟩, _⟩ := hitem
    simp only [List.mem_filter, decide_eq_true_eq] at hc
    exact hc.2
  · intro ids r l h
    simp [toggleShoppingList, h]

/-- Witness for C2: a concrete toggle on a list containing the recipe
takes the removal branch. -/
theorem C2_witness :
    toggleShoppingList exIds exRecipePasta
        [{ id := ("i0"), name := ("tomatoe"), store := ("Coles"), checked := true,
           contributions := [{ recipeId := ("r9"), recipeTitle := ("Tomato Pasta"),
                               text := ("Tomatoes"), price := none }] }] =
      removeRecipeContributions (exRecipePasta.title)
        [{ id := ("i0"), name := ("tomatoe"), store := ("Coles"), checked := true,
           contributions := [{ recipeId := ("r9"), recipeTitle := ("Tomato Pasta"),
                               text := ("Tomatoes"), price := none }] }] :=
  C2_removeRecipe_retraction.2.2 exIds exRecipePasta _ (by decide)

/-! ### C1 — add-recipe merge by (store, normalized name) -/

theorem mergeFirst_eq_none (store normName : String) (c : IngredientContribution)
    (l : List ShoppingListItem)
    (h : ∀ j ∈ l, ¬ (j.store = store ∧ j.name = normName)) :
    mergeFirst store normName c l = none := by
  induction l with
  | nil => rfl
  | cons item rest ih =>
    rw [mergeFirst, if_neg (h item (List.mem_cons_self item rest))]
    rw [ih (fun j hj => h j (List.mem_cons_of_mem item hj))]
    rfl

theorem mergeFirst_found (store normName : String) (c : IngredientContribution)
    (pre post : List ShoppingListItem) (item : ShoppingListItem)
    (hpre : ∀ j ∈ pre, ¬ (j.store = store ∧ j.name = normName))
    (hs : item.store = store) (hn : item.name = normName) :
    mergeFirst store normName c (pre ++ item :: post) =
      some (pre ++ { item with
        checked := false
        contributions := item.contributions ++ [c] } :: post) := by
  induction pre with
  | nil =>
    rw [List.nil_append, mergeFirst, if_pos ⟨hs, hn⟩, List.nil_append]
  | cons j pre ih =>
    rw [List.cons_append, mergeFirst, if_neg (hpre j (List.mem_cons_self j pre))]
    rw [ih (fun j2 hj2 => hpre j2 (List.mem_cons_of_mem j hj2))]
    rw [Option.map_some']
    rw [List.cons_append]

/-- C1: (i) when the recipe is not in the list the toggle entry point takes
the ADD branch; (ii) the ADD branch folds the recipe's ingredients left to
right; (iii) one ingredient step with no `(store, name)` match appends a
fresh item (id drawn from the id source, `checked = false`, exactly the one
contribution); (iv) one ingredient step with a match updates the first
matching item in place, appending the contribution and forcing
`checked = false`; (v) hence two recipes with distinct titles, each with a
single ingredient sharing normalized name and store, merge into exactly one
item carrying both contributions. -/
theorem C1_addRecipe_merges :
    (∀ (ids : Nat → String) (r : Recipe) (l : List ShoppingListItem),
        isRecipeInList l r.title = false → toggleShoppingList ids r l = addRecipe ids r l) ∧
    (∀ (ids : Nat → String) (r : Recipe) (l : List ShoppingListItem),
        addRecipe ids r l = (r.ingredients.foldl (addIngredient r ids) (l, 0)).1) ∧
    (∀ (r : Recipe) (ids : Nat → String) (l : List ShoppingListItem) (k : Nat) (ing : Ingredient),
        (∀ j ∈ l, ¬ (j.store = ingredientStore ing ∧ j.name = cleanIngredientText ing.item)) →
        addIngredient r ids (l, k) ing =
          (l ++ [{ id := ids k, name := cleanIngredientText ing.item,
                   store := ingredientStore ing, checked := false,
                   contributions := [mkContribution r ing] }], k + 1)) ∧
    (∀ (r : Recipe) (ids : Nat → String) (pre post : List ShoppingListItem)
        (item : ShoppingListItem) (k : Nat) (ing : Ingredient),
        (∀ j ∈ pre, ¬ (j.store = ingredientStore ing ∧ j.name = cleanIngredientText ing.item)) →
        item.store = ingredientStore ing → item.name = cleanIngredientText ing.item →
        addIngredient r ids (pre ++ item :: post, k) ing =
          (pre ++ { item with
                    checked := false
                    contributions := item.contributions ++ [mkContribution r ing] } :: post, k)) ∧
    (∀ (ids1 ids2 : Nat → String) (r1 r2 : Recipe) (i1 i2 : Ingredient),
        r1.ingredients = [i1] → r2.ingredients = [i2] →
        cleanIngredientText i1.item = cleanIngredientText i2.item →
        ingredientStore i1 = ingredientStore i2 →
        r1.title ≠ r2.title →
        toggleShoppingList ids2 r2 (toggleShoppingList ids1 r1 []) =
          [{ id := ids1 0, name := cleanIngredientText i1.item, store := ingredientStore i1,
             checked := false,
             contributions := [mkContribution r1 i1, mkContribution r2 i2] }]) := by
  have hgate : ∀ (ids : Nat → String) (r : Recipe) (l : List ShoppingListItem),
      isRecipeInList l r.title = false → toggleShoppingList ids r l = addRecipe ids r l := by
    intro ids r l h
    rw [toggleShoppingList, if_neg]
    rw [h]
    exact Bool.false_ne_true
  have hnew : ∀ (r : Recipe) (ids : Nat → String) (l : List ShoppingListItem) (k : Nat)
      (ing : Ingredient),
      (∀ j ∈ l, ¬ (j.store = ingredientStore ing ∧ j.name = cleanIngredientText ing.item)) →
      addIngredient r ids (l, k) ing =
        (l ++ [{ id := ids k, name := cleanIngredientText ing.item,
                 store := ingredientStore ing, checked := false,
                 contributions := [mkContribution r ing] }], k + 1) := by
    intro r ids l k ing h
    rw [addIngredient]
    rw [mergeFirst_eq_none _ _ _ _ h]
  have hupd : ∀ (r : Recipe) (ids : Nat → String) (pre post : List ShoppingListItem)
      (item : ShoppingListItem) (k : Nat) (ing : Ingredient),
      (∀ j ∈ pre, ¬ (j.store = ingredientStore ing ∧ j.name = cleanIngredientText ing.item)) →
      item.store = ingredientStore ing → item.name = cleanIngredientText ing.item →
      addIngredient r ids (pre ++ item :: post, k) ing =
        (pre ++ { item with
                  checked := false
                  contributions := item.contributions ++ [mkContribution r ing] } :: post, k) := by
    intro r ids pre post item k ing hpre hs hn
    rw [addIngredient]
    rw [mergeFirst_found _ _ _ _ _ _ hpre hs hn]
  refine ⟨hgate, fun _ _ _ => rfl, hnew, hupd, ?_⟩
  intro ids1 ids2 r1 r2 i1 i2 h1 h2 hname hstore htitle
  have hstep1 : toggleShoppingList ids1 r1 [] =
      [{ id := ids1 0, name := cleanIngredientText i1.item, store := ingredientStore i1,
         checked := false, contributions := [mkContribution r1 i1] }] := by
    rw [hgate ids1 r1 [] rfl, addRecipe, h1, List.foldl_cons, List.foldl_nil]
    rw [hnew r1 ids1 [] 0 i1 (by intro j hj; cases hj)]
    rw [List.nil_append]
  rw [hstep1]
  have hnotin : isRecipeInList
      [{ id := ids1 0, name := cleanIngredientText i1.item, store := ingredientStore i1,
         checked := false, contributions := [mkContribution r1 i1] }] r2.title = false := by
    simp [isRecipeInList, mkContribution]
    exact htitle
  rw [hgate ids2 r2 _ hnotin, addRecipe, h2, List.foldl_cons, List.foldl_nil]
  have := hupd r2 ids2 [] []
      { id := ids1 0, name := cleanIngredientText i1.item, store := ingredientStore i1,
        checked := false, contributions := [mkContribution r1 i1] } 0 i2
      (by intro j hj; cases hj) (by simpa using hstore) (by simpa using hname)
  rw [List.nil_append] at this
  rw [this]
  exact rfl

/-- Witness for C1: the merge conjunct at two concrete single-ingredient
recipes whose ingredients normalize to the same key with the same store. -/
theorem C1_witness :
    toggleShoppingList exIds exRecipeSoup (toggleShoppingList exIds exRecipePasta []) =
      [{ id := exIds 0, name := cleanIngredientText (exIngredientTomato.item),
         store := ingredientStore exIngredientTomato, checked := false,
         contributions := [mkContribution exRecipePasta exIngredientTomato,
           mkContribution exRecipeSoup { item := ("2 Tomatoes"), store := ("Coles"), price := ("$1.25") }] }] :=
  C1_addRecipe_merges.2.2.2.2 exIds exIds exRecipePasta exRecipeSoup
    exIngredientTomato { item := ("2 Tomatoes"), store := ("Coles"), price := ("$1.25") }
    rfl rfl (by decide) (by decide) (by decide)

/-! ### C3 — exact cache matching -/

/-- The claim's difficulty banding: Easy admits `≤ 2`, Medium admits `= 3`
exactly, Hard admits `≥ 4`, Any admits every difficulty. -/
def difficultyBand (d : String) (level : Int) : Prop :=
  if d = ("Easy") then level ≤ 2
  else if d = ("Medium") then level = 3
  else if d = ("Hard") then 4 ≤ level
  else True

set_option maxHeartbeats 1000000 in
/-- C3: for the four documented difficulty labels, `getCachedMatches`
returns exactly the cached recipes that pass all four conditions. -/
theorem C3_getCachedMatches_exact :
    ∀ (cache : List Recipe) (f : FilterState),
      (f.difficulty = ("Any") ∨ f.difficulty = ("Easy") ∨
        f.difficulty = ("Medium") ∨ f.difficulty = ("Hard")) →
      ∀ r : Recipe,
        r ∈ getCachedMatches cache f ↔
          (r ∈ cache ∧ r.mealType = f.mealType ∧
           (Protein.any ∈ f.protein ∨ r.protein ∈ f.protein) ∧
           r.prepTimeMinutes ≤ f.maxTime ∧
           difficultyBand f.difficulty r.difficulty) := by
  intro cache f hd r
  rw [getCachedMatches, List.mem_filter]
  constructor
  · rintro ⟨hmem, hb⟩
    refine ⟨hmem, ?_⟩
    rcases hd with h | h | h | h <;>
      simp only [recipeMatchesFilter, h, difficultyBand] at hb ⊢ <;>
      split_ifs at hb <;> simp_all [List.any_eq_true]
  · rintro ⟨hmem, h1, h2, h3, h4⟩
    refine ⟨hmem, ?_⟩
    rcases hd with h | h | h | h <;>
      simp only [recipeMatchesFilter, h, difficultyBand] at h4 ⊢ <;>
      split_ifs <;> simp_all [List.any_eq_true] <;> omega

/-- Witness for C3: a concrete Medium-difficulty lookup. -/
theorem C3_witness :
    exRecipePasta ∈
      getCachedMatches [exRecipePasta, exRecipeSoup]
        { mealType := MealType.dinner, protein := [Protein.any], maxTime := 30,
          supermarket := ("Any"), difficulty := ("Easy") } ↔
      (exRecipePasta ∈ [exRecipePasta, exRecipeSoup] ∧
       exRecipePasta.mealType = MealType.dinner ∧
       (Protein.any ∈ [Protein.any] ∨ exRecipePasta.protein ∈ [Protein.any]) ∧
       exRecipePasta.prepTimeMinutes ≤ 30 ∧
       difficultyBand ("Easy") exRecipePasta.difficulty) :=
  C3_getCachedMatches_exact [exRecipePasta, exRecipeSoup]
    { mealType := MealType.dinner, protein := [Protein.any], maxTime := 30,
      supermarket := ("Any"), difficulty := ("Easy") }
    (Or.inr (Or.inl rfl)) exRecipePasta

/-! ### C4 — cache deduplication on insert -/

def c4First : Recipe :=
  { id := ("a"), title := ("Same Title"), description := ("d"), mealType := MealType.dinner,
    protein := Protein.beef, prepTimeMinutes := 30, difficulty := 3,
    ingredients := [], instructions := [], image := none }

def c4Second : Recipe :=
  { id := ("b"), title := ("Same Title"), description := ("d"), mealType := MealType.dinner,
    protein := Protein.beef, prepTimeMinutes := 30, difficulty := 3,
    ingredients := [], instructions := [], image := none }

/-- C4 counterexample: two recipes with the same title but different ids
inserted in ONE batch are BOTH appended — the dedup set is built from the
pre-call cache only — so the cache ends with two same-title entries, not
one. -/
theorem C4_counterexample :
    c4First.title = c4Second.title ∧ c4First.id ≠ c4Second.id ∧
    addToCache [] [c4First, c4Second] = [c4First, c4Second] ∧
    (addToCache [] [c4First, c4Second]).length = 2 := by
  exact ⟨by decide, by decide, by decide, by decide⟩

/-- C4 (amended): `addToCache` discards exactly the candidates whose title
already existed in the cache before the call and appends the others in
order; hence a same-title recipe inserted in a LATER call is discarded
(keeping the first), while same-title duplicates inside one batch are all
appended. -/
theorem C4_addToCache_dedup_amended :
    (∀ (prev news : List Recipe),
        addToCache prev news =
          prev ++ news.filter (fun r => ¬ prev.any (fun p => p.title = r.title))) ∧
    (∀ (cache : List Recipe) (r : Recipe),
        cache.any (fun p => p.title = r.title) = true → addToCache cache [r] = cache) ∧
    (∀ (cache : List Recipe) (r1 r2 : Recipe), r1.title = r2.title →
        addToCache (addToCache cache [r1]) [r2] = addToCache cache [r1]) ∧
    addToCache (addToCache [] [c4First]) [c4Second] = [c4First] := by
  have habs : ∀ (prev news : List Recipe),
      addToCache prev news =
        prev ++ news.filter (fun r => ¬ prev.any (fun p => p.title = r.title)) := by
    intro prev news
    unfold addToCache
    by_cases h : (news.filter (fun r => ¬ prev.any (fun p => p.title = r.title))).length = 0
    · rw [if_pos h]
      rw [List.length_eq_zero] at h
      rw [h, List.append_nil]
    · rw [if_neg h]
  have hskip : ∀ (cache : List Recipe) (r : Recipe),
      cache.any (fun p => p.title = r.title) = true → addToCache cache [r] = cache := by
    intro cache r h
    rw [habs]
    have hnil : List.filter (fun r2 => ¬ cache.any (fun p => p.title = r2.title)) [r] = [] := by
      rw [List.filter_cons, if_neg]
      · rfl
      · simp [h]
    rw [hnil, List.append_nil]
  refine ⟨habs, hskip, ?_, by decide⟩
  intro cache r1 r2 ht
  by_cases h : cache.any (fun p => p.title = r1.title) = true
  · rw [hskip cache r1 h]
    exact hskip cache r2 (by rw [← ht]; exact h)
  · have hfalse : cache.any (fun p => p.title = r1.title) = false :=
      Bool.eq_false_iff.mpr h
    have hone : List.filter (fun r2 => ¬ cache.any (fun p => p.title = r2.title)) [r1] = [r1] := by
      rw [List.filter_cons, if_pos]
      · rfl
      · simp [hfalse]
    rw [habs cache [r1], hone]
    apply hskip
    rw [List.any_append]
    have : List.any [r1] (fun p => p.title = r2.title) = true := by simp [← ht]
    rw [this, Bool.or_true]

/-- Witness for C4 (amended): the across-calls dedup conjunct at concrete
recipes. -/
theorem C4_witness :
    addToCache (addToCache [] [c4First]) [c4Second] = addToCache [] [c4First] :=
  C4_addToCache_dedup_amended.2.2.1 [] c4First c4Second (by decide)

/-! ### C7 — combined price display -/

/-- Sum of the parseable numeric price substrings of a price list. -/
def sumPrices (ps : List String) : ℚ := (ps.filterMap parsePrice).sum

/-- The amended claim's description of the price display: no price, nothing;
a single price string, verbatim; two or more with every one parseable and a
positive sum, `'$'` plus the sum at 2 decimal places; otherwise the raw
strings joined by `" + "`. -/
def priceDisplaySpec (item : ShoppingListItem) : Option String :=
  match itemPrices item with
  | [] => none
  | [p] => some p
  | p :: q :: rest =>
    if (∀ s ∈ (p :: q :: rest), (parsePrice s).isSome = true) ∧ 0 < sumPrices (p :: q :: rest) then
      some (("$") ++ toFixed2 (sumPrices (p :: q :: rest)))
    else some (String.intercalate (" + ") (p :: q :: rest))

def c7ZeroItem : ShoppingListItem :=
  { id := ("i1"), name := ("x"), store := ("Any"), checked := false,
    contributions :=
      [{ recipeId := ("r1"), recipeTitle := ("A"), text := ("t1"), price := some ("$0.00") },
       { recipeId := ("r2"), recipeTitle := ("B"), text := ("t2"), price := some ("$0.00") }] }

def c7SumItem : ShoppingListItem :=
  { id := ("i2"), name := ("y"), store := ("Any"), checked := false,
    contributions :=
      [{ recipeId := ("r1"), recipeTitle := ("A"), text := ("t1"), price := some ("$3.50") },
       { recipeId := ("r2"), recipeTitle := ("B"), text := ("t2"), price := some ("$1.25") }] }

def c7MixedItem : ShoppingListItem :=
  { id := ("i3"), name := ("z"), store := ("Any"), checked := false,
    contributions :=
      [{ recipeId := ("r1"), recipeTitle := ("A"), text := ("t1"), price := some ("$3.50") },
       { recipeId := ("r2"), recipeTitle := ("B"), text := ("t2"), price := some ("market price") }] }

/-- C7 counterexample: an item whose two prices both parse cleanly (to 0)
is displayed as the literal join `"$0.00 + $0.00"`, not as the 2-decimal
rendering `"$0.00"` of their sum — the code additionally requires the sum
to be positive. -/
theorem C7_counterexample :
    (itemPrices c7ZeroItem).all (fun p => (parsePrice p).isSome) = true ∧
    getItemPriceDisplay c7ZeroItem = some (("$0.00") ++ (" + ") ++ ("$0.00")) ∧
    getItemPriceDisplay c7ZeroItem ≠ some (("$") ++ toFixed2 (sumPrices (itemPrices c7ZeroItem))) := by
  refine ⟨by decide, ?_, ?_⟩
  · with_unfolding_all decide
  · with_unfolding_all decide

theorem foldl_add_eq_sum (l : List ℚ) : l.foldl (fun a b => a + b) 0 = l.sum := by
  rw [List.sum_eq_foldl]

/-- C7 (amended): the price display agrees everywhere with the corrected
description `priceDisplaySpec` (absent for no price, verbatim for one,
2-decimal dollar sum for ≥ 2 cleanly-parsed prices with positive sum,
literal `" + "` join otherwise); on the claim's examples, `"$3.50"` and
`"$1.25"` combine to `"$4.75"`, and a non-numeric price string alongside a
numeric one falls back to literal concatenation. -/
theorem C7_price_display_amended :
    (∀ item : ShoppingListItem, getItemPriceDisplay item = priceDisplaySpec item) ∧
    getItemPriceDisplay c7SumItem = some (("$4.75")) ∧
    getItemPriceDisplay c7MixedItem = some (("$3.50 + market price")) := by
  refine ⟨?_, by with_unfolding_all decide, by with_unfolding_all decide⟩
  intro item
  rw [getItemPriceDisplay, priceDisplaySpec]
  cases hps : itemPrices item with
  | nil => rfl
  | cons p tail =>
    cases tail with
    | nil => rfl
    | cons q rest =>
      simp only [List.all_eq_true, sumPrices, foldl_add_eq_sum]

/-! ### C8 — un-gated double add duplicates contributions -/

/-- C8: invoking the ADD branch twice for the same recipe (no
`isRecipeInList` gate) leaves the affected item holding the recipe's
contribution twice. -/
theorem C8_double_add_duplicates :
    addRecipe exIds exRecipePasta (addRecipe exIds exRecipePasta []) =
      [{ id := ("0"), name := ("tomatoe"), store := ("Coles"), checked := false,
         contributions :=
           [{ recipeId := ("r1"), recipeTitle := ("Tomato Pasta"), text := ("Tomatoes"),
              price := some ("$3.50") },
            { recipeId := ("r1"), recipeTitle := ("Tomato Pasta"), text := ("Tomatoes"),
              price := some ("$3.50") }] }] := by
  decide

/-! ### C9 — image patch fan-out -/

theorem map_patchRecipe_id (id img : String) (l : List Recipe)
    (h : ∀ r ∈ l, r.id ≠ id) : l.map (patchRecipe id img) = l := by
  induction l with
  | nil => rfl
  | cons r l ih =>
    rw [List.map_cons, patchRecipe, if_neg (h r (List.mem_cons_self r l)),
      ih (fun x hx => h x (List.mem_cons_of_mem r hx))]

theorem patchDay_id (id img : String) (d : DayPlan)
    (h : ∀ r ∈ dayRecipes d, r.id ≠ id) : patchDay id img d = d := by
  have hl : d.lunch.map (patchRecipe id img) = d.lunch := by
    cases hd : d.lunch with
    | none => rfl
    | some r =>
      rw [Option.map_some', patchRecipe, if_neg]
      apply h
      rw [dayRecipes, hd]
      simp
  have hdin : d.dinner.map (patchRecipe id img) = d.dinner := by
    cases hd : d.dinner with
    | none => rfl
    | some r =>
      rw [Option.map_some', patchRecipe, if_neg]
      apply h
      rw [dayRecipes, hd]
      simp
  rw [patchDay, hl, hdin]

/-- C9: `handleUpdateRecipeImage` (i) patches each of the four collections
with the same per-record patch; (ii) the patch replaces exactly the `image`
field of a record whose id matches and leaves records with any other id
untouched; (iii) a collection holding no record with the id is left
unchanged (including every lunch/dinner slot of the active plan, and an
absent plan stays absent). -/
theorem C9_patchImage_fanout :
    ∀ (id img : String) (s : AppState),
      ((handleUpdateRecipeImage id img s).recipes = s.recipes.map (patchRecipe id img) ∧
       (handleUpdateRecipeImage id img s).favoriteRecipes = s.favoriteRecipes.map (patchRecipe id img) ∧
       (handleUpdateRecipeImage id img s).recipeCache = s.recipeCache.map (patchRecipe id img) ∧
       (handleUpdateRecipeImage id img s).weeklyPlan = s.weeklyPlan.map (patchPlan id img)) ∧
      ((∀ r : Recipe, r.id = id → patchRecipe id img r = { r with image := some img }) ∧
       (∀ r : Recipe, r.id ≠ id → patchRecipe id img r = r)) ∧
      ((∀ r ∈ s.recipes, r.id ≠ id) →
        (handleUpdateRecipeImage id img s).recipes = s.recipes) ∧
      ((∀ r ∈ s.favoriteRecipes, r.id ≠ id) →
        (handleUpdateRecipeImage id img s).favoriteRecipes = s.favoriteRecipes) ∧
      ((∀ r ∈ s.recipeCache, r.id ≠ id) →
        (handleUpdateRecipeImage id img s).recipeCache = s.recipeCache) ∧
      (∀ p : WeeklyPlan, s.weeklyPlan = some p → (∀ r ∈ planRecipes p, r.id ≠ id) →
        (handleUpdateRecipeImage id img s).weeklyPlan = some p) := by
  intro id img s
  refine ⟨⟨rfl, rfl, rfl, rfl⟩, ⟨?_, ?_⟩, ?_, ?_, ?_, ?_⟩
  · intro r h
    rw [patchRecipe, if_pos h]
  · intro r h
    rw [patchRecipe, if_neg h]
  · intro h
    exact map_patchRecipe_id id img s.recipes h
  · intro h
    exact map_patchRecipe_id id img s.favoriteRecipes h
  · intro h
    exact map_patchRecipe_id id img s.recipeCache h
  · intro p hp h
    have hday : ∀ d : DayPlan,
        (∀ r ∈ dayRecipes d, r ∈ planRecipes p) → patchDay id img d = d := by
      intro d hd
      exact patchDay_id id img d (fun r hr => h r (hd r hr))
    show (handleUpdateRecipeImage id img s).weeklyPlan = some p
    rw [handleUpdateRecipeImage]
    show (s.weeklyPlan.map (patchPlan id img)) = some p
    rw [hp, Option.map_some']
    have hplan : patchPlan id img p = p := by
      rw [patchPlan]
      rw [hday p.Monday (by intro r hr; rw [planRecipes]; simp [hr]),
        hday p.Tuesday (by intro r hr; rw [planRecipes]; simp [hr]),
        hday p.Wednesday (by intro r hr; rw [planRecipes]; simp [hr]),
        hday p.Thursday (by intro r hr; rw [planRecipes]; simp [hr]),
        hday p.Friday (by intro r hr; rw [planRecipes]; simp [hr]),
        hday p.Saturday (by intro r hr; rw [planRecipes]; simp [hr]),
        hday p.Sunday (by intro r hr; rw [planRecipes]; simp [hr])]
    rw [hplan]

def c9Plan : WeeklyPlan :=
  { Monday := { lunch := some exRecipePasta, dinner := none },
    Tuesday := { lunch := none, dinner := none },
    Wednesday := { lunch := none, dinner := none },
    Thursday := { lunch := none, dinner := none },
    Friday := { lunch := none, dinner := none },
    Saturday := { lunch := none, dinner := none },
    Sunday := { lunch := none, dinner := none } }

def c9State : AppState :=
  { recipes := [exRecipeSoup], favoriteRecipes := [], recipeCache := [exRecipePasta],
    weeklyPlan := some c9Plan }

/-- Witness for C9: patching an id held by no collection of a concrete
state leaves its plan unchanged. -/
theorem C9_witness :
    (handleUpdateRecipeImage ("zz") ("IMG") c9State).weeklyPlan = some c9Plan :=
  (C9_patchImage_fanout ("zz") ("IMG") c9State).2.2.2.2.2 c9Plan rfl (by decide)

/-! ### C6 (amended) — idempotence on whitespace-free input

The counterexample above shows the normalizer is not idempotent in general
(the singularization step can re-expose whitespace that the final trim had
removed, and can leave a unit word at the head of the key). On inputs with
no `\s` character the quantity regex can never match and the trims are
no-ops, and idempotence holds; the development below proves it. -/

/-- No character of `l` is ECMAScript whitespace. -/
def noWS (l : List Char) : Prop := ∀ c ∈ l, jsWS c = false

/-- Characters a whitespace-free normal form consists of: lowercase ASCII
letters and digits (everything else is removed by the filter step). -/
def goodChar (c : Char) : Prop :=
  (97 ≤ c.toNat ∧ c.toNat ≤ 122) ∨ (48 ≤ c.toNat ∧ c.toNat ≤ 57)

theorem isDigit_iff_toNat (c : Char) : c.isDigit = true ↔ 48 ≤ c.toNat ∧ c.toNat ≤ 57 := by
  simp [Char.isDigit, Char.le_def, Char.toNat, UInt32.le_def, UInt32.toNat, BitVec.le_def]

theorem char_le_iff_toNat (a c : Char) : a ≤ c ↔ a.toNat ≤ c.toNat := by
  simp [Char.le_def, Char.toNat, UInt32.le_def, UInt32.toNat, BitVec.le_def]

instance (c : Char) : Decidable (goodChar c) :=
  inferInstanceAs (Decidable ((97 ≤ c.toNat ∧ c.toNat ≤ 122) ∨ (48 ≤ c.toNat ∧ c.toNat ≤ 57)))

theorem jsWS_eq_false_of_good (c : Char) (h : goodChar c) : jsWS c = false := by
  rw [jsWS, decide_eq_false_iff_not]
  intro hmem
  simp at hmem
  rcases h with h | h <;> omega

theorem toNat_charOfNat (n : Nat) (h : n < 55296) : (Char.ofNat n).toNat = n := by
  have hv : n.isValidChar := Or.inl h
  rw [Char.ofNat, dif_pos hv]
  rfl

theorem jsWS_jsLower (c : Char) (h : jsWS c = false) : jsWS (jsLower c) = false := by
  rw [jsLower]
  by_cases hc : 65 ≤ c.toNat ∧ c.toNat ≤ 90
  · rw [if_pos hc]
    apply jsWS_eq_false_of_good
    refine Or.inl ?_
    rw [toNat_charOfNat (c.toNat + 32) (by omega)]
    omega
  · rw [if_neg hc]
    exact h

theorem good_of_keep_noWS (c : Char) (hk : keepChar c = true) (hw : jsWS c = false) :
    goodChar c := by
  rw [keepChar, hw, Bool.or_false, Bool.or_eq_true] at hk
  rcases hk with hk | hk
  · rw [decide_eq_true_eq] at hk
    obtain ⟨h1, h2⟩ := hk
    rw [char_le_iff_toNat] at h1 h2
    exact Or.inl ⟨h1, h2⟩
  · rw [isDigit_iff_toNat] at hk
    exact Or.inr hk

theorem qchar_eq_false_of_letter (c : Char) (h : 97 ≤ c.toNat ∧ c.toNat ≤ 122) :
    qchar c = false := by
  have h1 : c.isDigit = false := by
    rw [Bool.eq_false_iff]
    intro hd
    rw [isDigit_iff_toNat] at hd
    omega
  have h2 : decide (c = '.') = false := by
    rw [decide_eq_false_iff_not]
    intro he
    rw [he] at h
    exact absurd h (by decide)
  have h3 : decide (c = '/') = false := by
    rw [decide_eq_false_iff_not]
    intro he
    rw [he] at h
    exact absurd h (by decide)
  rw [qchar, h1, h2, h3, jsWS_eq_false_of_good c (Or.inl h)]
  rfl

theorem good_ne_lparen (c : Char) (h : goodChar c) : c ≠ '(' := by
  intro he
  rw [he] at h
  exact absurd h (by decide)

theorem keep_of_good (c : Char) (h : goodChar c) : keepChar c = true := by
  rw [keepChar, Bool.or_eq_true, Bool.or_eq_true]
  rcases h with h | h
  · left
    left
    rw [decide_eq_true_eq, char_le_iff_toNat, char_le_iff_toNat]
    exact ⟨h.1, h.2⟩
  · left
    right
    rw [isDigit_iff_toNat]
    exact h

theorem jsLower_eq_self_of_good (c : Char) (h : goodChar c) : jsLower c = c := by
  rw [jsLower, if_neg]
  intro hc
  rcases h with h | h <;> omega

end RecipeGenie

namespace RecipeGenie

/-! Structural facts: no stage of the normalizer introduces whitespace, and
on whitespace-free input the quantity strip, the trims and the leading strip
behave trivially. -/

theorem mem_of_mem_dropToClose {l r : List Char} (h : dropToClose l = some r) :
    ∀ c ∈ r, c ∈ l := by
  induction l with
  | nil => cases h
  | cons a l ih =>
    rw [dropToClose] at h
    by_cases ha : a = ')'
    · rw [if_pos ha] at h
      cases h
      intro c hc
      exact List.mem_cons_of_mem a hc
    · rw [if_neg ha] at h
      intro c hc
      exact List.mem_cons_of_mem a (ih h c hc)

theorem removeParensAux_zero (l : List Char) : removeParensAux 0 l = [] := by
  cases l <;> rfl

theorem removeParensAux_succ_cons (n : Nat) (a : Char) (rest : List Char) :
    removeParensAux (n + 1) (a :: rest) =
      (if a = '(' then
        match dropToClose rest with
        | some rest2 => removeParensAux n rest2
        | none => a :: removeParensAux n rest
      else a :: removeParensAux n rest) := by
  rfl

theorem mem_of_mem_removeParensAux :
    ∀ (n : Nat) (l : List Char), ∀ c ∈ removeParensAux n l, c ∈ l := by
  intro n
  induction n with
  | zero =>
    intro l c hc
    rw [removeParensAux_zero] at hc
    cases hc
  | succ n ih =>
    intro l c hc
    cases l with
    | nil =>
      rw [show removeParensAux (n + 1) ([] : List Char) = [] from rfl] at hc
      cases hc
    | cons a rest =>
      rw [removeParensAux_succ_cons] at hc
      by_cases ha : a = '('
      · rw [if_pos ha] at hc
        cases hdc : dropToClose rest with
        | some rest2 =>
          rw [hdc] at hc
          exact List.mem_cons_of_mem a (mem_of_mem_dropToClose hdc c (ih rest2 c hc))
        | none =>
          rw [hdc] at hc
          rcases List.mem_cons.mp hc with hc | hc
          · rw [hc]
            exact List.mem_cons_self a rest
          · exact List.mem_cons_of_mem a (ih rest c hc)
      · rw [if_neg ha] at hc
        rcases List.mem_cons.mp hc with hc | hc
        · rw [hc]
          exact List.mem_cons_self a rest
        · exact List.mem_cons_of_mem a (ih rest c hc)

theorem mem_of_mem_removeParens {l : List Char} : ∀ c ∈ removeParens l, c ∈ l :=
  mem_of_mem_removeParensAux l.length l

theorem removeParensAux_eq_self :
    ∀ (n : Nat) (l : List Char), (∀ c ∈ l, c ≠ '(') → l.length ≤ n →
      removeParensAux n l = l := by
  intro n
  induction n with
  | zero =>
    intro l h hlen
    rw [Nat.le_zero, List.length_eq_zero] at hlen
    rw [hlen]
    rfl
  | succ n ih =>
    intro l h hlen
    cases l with
    | nil => rfl
    | cons a rest =>
      rw [removeParensAux, if_neg (h a (List.mem_cons_self a rest))]
      rw [ih rest (fun c hc => h c (List.mem_cons_of_mem a hc))
        (by rw [List.length_cons] at hlen; omega)]

theorem removeParens_eq_self (l : List Char) (h : ∀ c ∈ l, c ≠ '(') :
    removeParens l = l :=
  removeParensAux_eq_self l.length l h (Nat.le_refl _)

theorem matchTail_eq_none (l : List Char) (h : noWS l) : matchTail l = none := by
  cases l with
  | nil => rfl
  | cons c rest =>
    rw [matchTail, if_neg]
    rw [h c (List.mem_cons_self c rest)]
    exact Bool.false_ne_true

theorem noWS_drop (l : List Char) (n : Nat) (h : noWS l) : noWS (l.drop n) :=
  fun c hc => h c (List.mem_of_mem_drop hc)

theorem tryUnits_eq_none (us : List (List Char)) (l : List Char) (h : noWS l) :
    tryUnits us l = none := by
  induction us with
  | nil => exact matchTail_eq_none l h
  | cons u us ih =>
    rw [tryUnits]
    by_cases hu : u.isPrefixOf l
    · rw [if_pos hu, matchTail_eq_none _ (noWS_drop l u.length h)]
      exact ih
    · rw [if_neg hu]
      exact ih

theorem tryFromK_eq_none (l : List Char) (h : noWS l) : ∀ k, tryFromK l k = none := by
  intro k
  induction k with
  | zero => exact tryUnits_eq_none unitAlts l h
  | succ k ih =>
    rw [tryFromK, tryUnits_eq_none unitAlts _ (noWS_drop l (k + 1) h)]
    exact ih

theorem quantityStrip_eq_self (l : List Char) (h : noWS l) : quantityStrip l = l := by
  rw [quantityStrip, tryFromK_eq_none l h]

theorem dropWhile_eq_self_of_none (p : Char → Bool) (l : List Char)
    (h : ∀ c ∈ l, p c = false) : l.dropWhile p = l := by
  cases l with
  | nil => rfl
  | cons a rest =>
    apply List.dropWhile_cons_of_neg
    rw [h a (List.mem_cons_self a rest)]
    exact Bool.false_ne_true

theorem trimWS_eq_self (l : List Char) (h : noWS l) : trimWS l = l := by
  rw [trimWS, dropWhile_eq_self_of_none jsWS l h,
    dropWhile_eq_self_of_none jsWS l.reverse (fun c hc => h c (List.mem_reverse.mp hc)),
    List.reverse_reverse]

theorem mem_of_mem_dropWhile (p : Char → Bool) (l : List Char) :
    ∀ c ∈ l.dropWhile p, c ∈ l := by
  induction l with
  | nil =>
    intro c hc
    cases hc
  | cons a rest ih =>
    intro c hc
    rw [List.dropWhile_cons] at hc
    by_cases ha : p a = true
    · rw [if_pos ha] at hc
      exact List.mem_cons_of_mem a (ih c hc)
    · rw [if_neg ha] at hc
      exact hc

theorem dropWhile_head_false (p : Char → Bool) (l : List Char) (a : Char)
    (h : (l.dropWhile p).head? = some a) : p a = false := by
  induction l with
  | nil => cases h
  | cons b rest ih =>
    rw [List.dropWhile_cons] at h
    by_cases hb : p b = true
    · rw [if_pos hb] at h
      exact ih h
    · rw [if_neg hb] at h
      rw [List.head?_cons, Option.some_inj] at h
      rw [← h]
      exact Bool.eq_false_iff.mpr hb

end RecipeGenie

namespace RecipeGenie

/-! Facts about the singularization step. -/

theorem singularize_of_rev_cons (l : List Char) (c : Char) (t : List Char)
    (h : l.reverse = c :: t) :
    singularize l =
      (if c = 's' ∧ t.take 1 ≠ ['s'] ∧ 3 < l.length then t.reverse else l) := by
  unfold singularize
  rw [h]

theorem singularize_of_rev_nil (l : List Char) (h : l.reverse = []) :
    singularize l = l := by
  unfold singularize
  rw [h]

theorem mem_of_mem_singularize (l : List Char) : ∀ c ∈ singularize l, c ∈ l := by
  cases hrev : l.reverse with
  | nil =>
    rw [singularize_of_rev_nil l hrev]
    intro c hc
    exact hc
  | cons a t =>
    rw [singularize_of_rev_cons l a t hrev]
    by_cases hcond : a = 's' ∧ t.take 1 ≠ ['s'] ∧ 3 < l.length
    · rw [if_pos hcond]
      intro c hc
      rw [← List.mem_reverse, hrev]
      exact List.mem_cons_of_mem a (List.mem_reverse.mp hc)
    · rw [if_neg hcond]
      intro c hc
      exact hc

theorem singularize_head? (l : List Char) : (singularize l).head? = l.head? := by
  cases hrev : l.reverse with
  | nil => rw [singularize_of_rev_nil l hrev]
  | cons a t =>
    rw [singularize_of_rev_cons l a t hrev]
    by_cases hcond : a = 's' ∧ t.take 1 ≠ ['s'] ∧ 3 < l.length
    · rw [if_pos hcond]
      have hl : l = t.reverse ++ [a] := by
        rw [← List.reverse_reverse l, hrev, List.reverse_cons]
      have hlen : l.length = t.length + 1 := by
        rw [← List.length_reverse l, hrev, List.length_cons]
      cases htr : t.reverse with
      | nil =>
        have ht : t = [] := List.reverse_eq_nil_iff.mp htr
        rw [ht] at hlen
        simp only [List.length_nil] at hlen
        exact absurd hcond.2.2 (by omega)
      | cons x xs =>
        rw [hl, htr, List.cons_append, List.head?_cons, List.head?_cons]
    · rw [if_neg hcond]

theorem singularize_idem (l : List Char) :
    singularize (singularize l) = singularize l := by
  cases hrev : l.reverse with
  | nil =>
    rw [singularize_of_rev_nil l hrev, singularize_of_rev_nil l hrev]
  | cons a t =>
    rw [singularize_of_rev_cons l a t hrev]
    by_cases hcond : a = 's' ∧ t.take 1 ≠ ['s'] ∧ 3 < l.length
    · rw [if_pos hcond]
      have hlen : l.length = t.length + 1 := by
        rw [← List.length_reverse l, hrev, List.length_cons]
      cases t with
      | nil =>
        simp only [List.length_nil] at hlen
        exact absurd hcond.2.2 (by omega)
      | cons c2 t2 =>
        rw [singularize_of_rev_cons ((c2 :: t2).reverse) c2 t2 (List.reverse_reverse _), if_neg]
        intro hcond2
        apply hcond.2.1
        have h1 : List.take 1 (c2 :: t2) = [c2] := rfl
        rw [h1, hcond2.1]
    · rw [if_neg hcond, singularize_of_rev_cons l a t hrev, if_neg hcond]

theorem map_eq_self_of_eq {α : Type} (f : α → α) (l : List α)
    (h : ∀ a ∈ l, f a = a) : l.map f = l := by
  induction l with
  | nil => rfl
  | cons a l ih =>
    rw [List.map_cons, h a (List.mem_cons_self a l),
      ih (fun x hx => h x (List.mem_cons_of_mem a hx))]

theorem filter_eq_self_of_all {α : Type} (p : α → Bool) (l : List α)
    (h : ∀ a ∈ l, p a = true) : l.filter p = l := by
  induction l with
  | nil => rfl
  | cons a l ih =>
    rw [List.filter_cons, if_pos (h a (List.mem_cons_self a l)),
      ih (fun x hx => h x (List.mem_cons_of_mem a hx))]

end RecipeGenie

namespace RecipeGenie

theorem cleanList_eq (l : List Char) :
    cleanList l =
      singularize (trimWS
        ((trimWS (quantityStrip ((removeParens (l.map jsLower)).filter keepChar))).dropWhile
          qchar)) := rfl

theorem noWS_of_good (l : List Char) (h : ∀ c ∈ l, goodChar c) : noWS l :=
  fun c hc => jsWS_eq_false_of_good c (h c hc)

/-- On whitespace-free input, the normal form consists of lowercase letters
and digits, does not start with a `[\d./\s]` character, and is a fixed
point of the singularization step. -/
theorem cleanList_fixed (l : List Char) (h : noWS l) :
    cleanList (cleanList l) = cleanList l := by
  have hl1 : noWS (l.map jsLower) := by
    intro c hc
    obtain ⟨a, ha, rfl⟩ := List.mem_map.mp hc
    exact jsWS_jsLower a (h a ha)
  have hl2 : noWS (removeParens (l.map jsLower)) :=
    fun c hc => hl1 c (mem_of_mem_removeParens c hc)
  have hl3 : noWS ((removeParens (l.map jsLower)).filter keepChar) :=
    fun c hc => hl2 c (List.mem_of_mem_filter hc)
  have hgood3 : ∀ c ∈ (removeParens (l.map jsLower)).filter keepChar, goodChar c := by
    intro c hc
    exact good_of_keep_noWS c (List.of_mem_filter hc) (hl3 c hc)
  have hinner : trimWS (quantityStrip ((removeParens (l.map jsLower)).filter keepChar)) =
      (removeParens (l.map jsLower)).filter keepChar := by
    rw [quantityStrip_eq_self _ hl3, trimWS_eq_self _ hl3]
  have hgood5 : ∀ c ∈ ((removeParens (l.map jsLower)).filter keepChar).dropWhile qchar,
      goodChar c :=
    fun c hc => hgood3 c (mem_of_mem_dropWhile qchar _ c hc)
  have hl5 : noWS (((removeParens (l.map jsLower)).filter keepChar).dropWhile qchar) :=
    noWS_of_good _ hgood5
  have houter : cleanList l =
      singularize (((removeParens (l.map jsLower)).filter keepChar).dropWhile qchar) := by
    rw [cleanList_eq, hinner, trimWS_eq_self _ hl5]
  have hgoody : ∀ c ∈ cleanList l, goodChar c := by
    intro c hc
    rw [houter] at hc
    exact hgood5 c (mem_of_mem_singularize _ c hc)
  have hheady : ∀ a : Char, (cleanList l).head? = some a → qchar a = false := by
    intro a ha
    rw [houter, singularize_head?] at ha
    exact dropWhile_head_false qchar _ a ha
  have hnoy : noWS (cleanList l) := noWS_of_good _ hgoody
  have hstep1 : (cleanList l).map jsLower = cleanList l :=
    map_eq_self_of_eq jsLower _ (fun c hc => jsLower_eq_self_of_good c (hgoody c hc))
  have hstep2 : removeParens (cleanList l) = cleanList l :=
    removeParens_eq_self _ (fun c hc => good_ne_lparen c (hgoody c hc))
  have hstep3 : (cleanList l).filter keepChar = cleanList l :=
    filter_eq_self_of_all keepChar _ (fun c hc => keep_of_good c (hgoody c hc))
  have hstep4 : (cleanList l).dropWhile qchar = cleanList l := by
    cases hy : cleanList l with
    | nil => rfl
    | cons a t =>
      apply List.dropWhile_cons_of_neg
      have ha : qchar a = false := by
        apply hheady
        rw [hy, List.head?_cons]
      rw [ha]
      exact Bool.false_ne_true
  have hstep5 : singularize (cleanList l) = cleanList l := by
    rw [houter, singularize_idem]
  rw [cleanList_eq (cleanList l), hstep1, hstep2, hstep3,
    quantityStrip_eq_self _ hnoy, trimWS_eq_self _ hnoy, hstep4, trimWS_eq_self _ hnoy,
    hstep5]

theorem toList_mk (X : List Char) : (String.mk X).toList = X := rfl

/-- C6 (amended): the normalizer is idempotent on every input string that
contains no ECMAScript whitespace character (in general it is not: see the
counterexample). -/
theorem C6_idempotent_on_ws_free :
    ∀ s : String, (∀ c ∈ s.toList, jsWS c = false) →
      cleanIngredientText (cleanIngredientText s) = cleanIngredientText s := by
  intro s h
  exact congrArg String.mk
    ((congrArg cleanList (toList_mk (cleanList s.toList))).trans (cleanList_fixed s.toList h))

/-- Witness for C6 (amended): idempotence at the whitespace-free input
`"Tomatoes"`. -/
theorem C6_witness :
    cleanIngredientText (cleanIngredientText ("Tomatoes")) = cleanIngredientText ("Tomatoes") :=
  C6_idempotent_on_ws_free ("Tomatoes") (by decide)

end RecipeGenie
